import Mathlib

/-!
# tbt-author-sub

A shallow embedding of `cmd/main.go` and the properties of its scraper,
its local known-URL store and its orchestrator `run`.

Go strings are byte sequences, so they are lists of `UInt8`; a Go `error`
is an `Option Error` with `none` for `nil`. Everything outside the
repository (the pages the collector fetches, the template engines, the cloud
APIs, the faults of the file system) enters through `Env`; the library
pieces the scraper and the local store depend on (`e.Unmarshal`,
`strings.TrimSpace`, `strings.Split`, `os.File`, `bufio.Writer`,
`bufio.Scanner`) are modelled after their Go sources.
-/

namespace TbtAuthorSub

/-! ## Strings and errors -/

/-- A Go string: an immutable sequence of bytes. -/
abbrev GoString := List UInt8

/-- The bytes of a Go string literal (Go source is UTF-8). -/
def lit (s : String) : GoString := s.data.flatMap String.utf8EncodeChar

/-- The line feed byte. -/
def LF : UInt8 := 10

/-- The carriage return byte. -/
def CR : UInt8 := 13

/-- Go error values that occur in the program; `nil` is `none : Option Error`. -/
inductive Error where
  | ErrTooLong                 -- bufio.ErrTooLong
  | ErrShortWrite              -- io.ErrShortWrite
  | other (msg : String)       -- any error produced by the environment
deriving DecidableEq, Repr

/-! ## Constants (main.go 23-28) -/

def kathrynPLID : GoString := lit "kathyrn-varn"
def baseURL : GoString := lit "https://www.tampabay.com"
def storySelector : GoString := lit ".author-page__story-list div.author-page__story-list--list-item"
def localFileStorage : GoString := lit ".tbt"

/-! ## Story model (main.go 45-53) -/

/-- The record `story`; a `[]*story` is a `List story`, since no story is
mutated after it has been appended to a slice. -/
structure story where
  URL : GoString
  Headline : GoString
  Summary : GoString
deriving DecidableEq, Repr

/-- Method `(s *story) valid()`. -/
def story.valid (s : story) : Bool :=
  s.URL != [] && s.Headline != [] && s.Summary != []

/-! ## Scraper (main.go 128-162) -/

/-- Go `strings.Split(s, sep)` for a one-byte separator: the substrings of `s`
between the occurrences of `sep`; never the empty slice. -/
def Split : GoString → UInt8 → List GoString
  | [], _ => [[]]
  | c :: cs, sep =>
    if c = sep then [] :: Split cs sep
    else
      match Split cs sep with
      | [] => [[c]]
      | h :: t => (c :: h) :: t

/-- The encodings of the runes for which `unicode.IsSpace` holds: the six
ASCII ones, U+0085, U+00A0, U+1680, U+2000 to U+200A, U+2028, U+2029, U+202F,
U+205F and U+3000. -/
def whiteSpace : List (List UInt8) :=
  [[0x09], [0x0A], [0x0B], [0x0C], [0x0D], [0x20],
   [0xC2, 0x85], [0xC2, 0xA0], [0xE1, 0x9A, 0x80],
   [0xE2, 0x80, 0x80], [0xE2, 0x80, 0x81], [0xE2, 0x80, 0x82], [0xE2, 0x80, 0x83],
   [0xE2, 0x80, 0x84], [0xE2, 0x80, 0x85], [0xE2, 0x80, 0x86], [0xE2, 0x80, 0x87],
   [0xE2, 0x80, 0x88], [0xE2, 0x80, 0x89], [0xE2, 0x80, 0x8A],
   [0xE2, 0x80, 0xA8], [0xE2, 0x80, 0xA9], [0xE2, 0x80, 0xAF],
   [0xE2, 0x81, 0x9F], [0xE3, 0x80, 0x80]]

/-- The white space rune that `s` begins with, if any. -/
def leadingSpace (s : GoString) : Option (List UInt8) :=
  whiteSpace.find? (fun p => s.take p.length == p)

/-- The white space rune that `s` ends with, if any. -/
def trailingSpace (s : GoString) : Option (List UInt8) :=
  whiteSpace.find? (fun p => decide (p.length ≤ s.length) && s.drop (s.length - p.length) == p)

/-- Go `strings.TrimLeftFunc(s, unicode.IsSpace)`, at most `fuel` runes. -/
def trimLeft : Nat → GoString → GoString
  | 0, s => s
  | fuel + 1, s =>
    match leadingSpace s with
    | some p => trimLeft fuel (s.drop p.length)
    | none => s

/-- Go `strings.TrimRightFunc(s, unicode.IsSpace)`, at most `fuel` runes. -/
def trimRight : Nat → GoString → GoString
  | 0, s => s
  | fuel + 1, s =>
    match trailingSpace s with
    | some p => trimRight fuel (s.take (s.length - p.length))
    | none => s

/-- Go `strings.TrimSpace(s)`: `s` without its leading and trailing white
space. A rune takes at least one byte, so `len(s)` steps are enough on either
side (`trimLeft_done`, `trimRight_done`). -/
def TrimSpace (s : GoString) : GoString :=
  trimRight s.length (trimLeft s.length s)

/-- What the selectors of `story` find in one element matched by
`storySelector`: the attribute `href` of `a.feed__item[href]`, the text of
`h3.feed__headline` and the text of `div.feed__summary`, each empty when
nothing matches. -/
structure Element where
  href : GoString
  headline : GoString
  summary : GoString
deriving DecidableEq, Repr

/-- Call `e.Unmarshal(s)` on a fresh `story`: a field with an `attr` tag gets
the attribute as it stands, a field without one gets the text with the white
space around it trimmed. -/
def Unmarshal (e : Element) : story :=
  { URL := e.href
    Headline := TrimSpace e.headline
    Summary := TrimSpace e.summary }

/-- What the collector does with one URL: the elements matching
`storySelector`, in the order in which the callback receives them, and the
error that `c.Visit` returns. -/
structure Visit where
  elements : List Element
  err : Option Error

/-- The `OnHTML` callback of `getStories` (main.go 133-153) from the validity
check on: `stories` is the captured slice, `s` the record after
`e.Unmarshal(s)`. -/
def onHTML (stories : List story) (s : story) : List story :=
  if !s.valid then stories
  else
    let s1 : story := { s with URL := baseURL ++ s.URL }
    let headSplits := Split s1.Headline LF
    let s2 : story := { s1 with
      Headline := headSplits.head (by
        show Split s.Headline LF ≠ []
        cases s.Headline with
        | nil => simp [Split]
        | cons c cs =>
          simp only [Split]
          split
          · simp
          · split <;> simp) }
    stories ++ [s2]

/-- The address that `getStories` visits: `"%s/writers/?plid=%s"`. -/
def authorURL : GoString := baseURL ++ lit "/writers/?plid=" ++ kathrynPLID

/-- Function `getStories`: `web` is the collector. The result of `c.Visit`
is discarded by the source, and the returned error is the constant `nil`. -/
def getStories (web : GoString → Visit) : List story × Option Error :=
  let stories : List story := []
  let visit := web authorURL
  let stories := visit.elements.foldl (fun stories e => onHTML stories (Unmarshal e)) stories
  (stories, none)

/-- The story that the callback appends for a raw record that is valid. -/
def normalised (r : story) : story :=
  { URL := baseURL ++ r.URL
    Headline := r.Headline.takeWhile (fun c => c ≠ LF)
    Summary := r.Summary }

/-! ## The file system: `os.OpenFile`, `(*os.File).Write` -/

/-- An open handle on `.tbt`: the bytes of the file, the offset of the
handle, and how many more bytes the device accepts before writes start to fail
(`none`: no limit). `f.Close()` hands `data` back to the disk. -/
structure File where
  data : List UInt8
  pos : Nat
  quota : Option Nat
deriving DecidableEq, Repr

/-- Call `os.OpenFile(localFileStorage, os.O_RDWR|os.O_CREATE, 0666)` on a
disk whose `.tbt` is `disk` (`none`: no such file). There is neither
`O_APPEND` nor `O_TRUNC`: the handle starts at offset 0 of the existing
bytes, and a missing file is created empty. Returns the handle or the error,
and the disk after the call. -/
def OpenFile (openErr : Option Error) (quota : Option Nat) (disk : Option (List UInt8)) :
    Except Error File × Option (List UInt8) :=
  match openErr with
  | some err => (.error err, disk)
  | none =>
    let bytes := disk.getD []
    (.ok { data := bytes, pos := 0, quota := quota }, some bytes)

/-- Method `(*os.File).Write(p)`: writes at the handle's offset, over the
bytes that are there and past the end, and advances the offset. When the
quota is smaller than `len(p)` only that many bytes go out and an error is
returned with the count. -/
def File.Write (f : File) (p : List UInt8) : (Nat × Option Error) × File :=
  let n := match f.quota with
    | none => p.length
    | some q => min q p.length
  let f1 : File :=
    { data := f.data.take f.pos ++ p.take n ++ f.data.drop (f.pos + n)
      pos := f.pos + n
      quota := f.quota.map (fun q => q - n) }
  ((n, if n < p.length then some (Error.other "no space left on device") else none), f1)

/-! ## `bufio.Writer` -/

/-- Constant `defaultBufSize` of package bufio. -/
def defaultBufSize : Nat := 4096

/-- A `bufio.Writer` of the default size: `buf` is `b.buf[0:b.n]`, `err` the
sticky error `b.err`. -/
structure Writer where
  buf : List UInt8
  err : Option Error
deriving DecidableEq, Repr

/-- Call `bufio.NewWriter(f)`. -/
def NewWriter : Writer := { buf := [], err := none }

/-- Method `(*Writer).Available()`. -/
def Writer.Available (b : Writer) : Nat := defaultBufSize - b.buf.length

/-- Method `(*Writer).Flush()`. -/
def Writer.Flush (b : Writer) (f : File) : Option Error × Writer × File :=
  match b.err with
  | some e => (some e, b, f)
  | none =>
    if b.buf.length = 0 then (none, b, f)
    else
      match f.Write b.buf with
      | ((n, err), f1) =>
        let err1 := if n < b.buf.length ∧ err = none then some Error.ErrShortWrite else err
        match err1 with
        | some e => (some e, { buf := b.buf.drop n, err := some e }, f1)
        | none => (none, { buf := [], err := none }, f1)

/-- The `for len(s) > b.Available() && b.err == nil` loop of
`(*Writer).WriteString`, at most `fuel` iterations: fill the buffer, flush,
go on with the rest of `s`. Returns the writer, the file, the rest of `s` and
the count `nn`. -/
def Writer.writeLoop : Nat → Writer → File → GoString → Nat → Writer × File × GoString × Nat
  | 0, b, f, s, nn => (b, f, s, nn)
  | fuel + 1, b, f, s, nn =>
    if s.length > b.Available ∧ b.err = none then
      let n := min s.length b.Available
      let b1 : Writer := { b with buf := b.buf ++ s.take n }
      match b1.Flush f with
      | (_, b2, f1) => Writer.writeLoop fuel b2 f1 (s.drop n) (nn + n)
    else (b, f, s, nn)

/-- Method `(*Writer).WriteString(s)`. The loop runs at most
`len(s) + 1` times (`writeLoop_exits`), so the fuel never runs out. -/
def Writer.WriteString (b : Writer) (f : File) (s : GoString) :
    (Nat × Option Error) × Writer × File :=
  match Writer.writeLoop (s.length + 2) b f s 0 with
  | (b1, f1, s1, nn) =>
    match b1.err with
    | some e => ((nn, some e), b1, f1)
    | none =>
      let n := min s1.length b1.Available
      ((nn + n, none), { b1 with buf := b1.buf ++ s1.take n }, f1)

/-! ## `bufio.Scanner` with the default split function `ScanLines` -/

/-- Constant `bufio.MaxScanTokenSize`. -/
def MaxScanTokenSize : Nat := 64 * 1024

/-- Function `dropCR` of package bufio: drops one terminal `\r`. -/
def dropCR (data : List UInt8) : List UInt8 :=
  if data.getLast? = some CR then data.dropLast else data

/-- The tokens that the `for scanner.Scan()` loop sees on the bytes `rest`
when `cur` is the part of the current line already consumed, and the value of
`scanner.Err()` afterwards: one token per line, without its `\n` and one
terminal `\r`; a final line without `\n` counts when it is not empty; a line
that does not fit the scanner's buffer of `MaxScanTokenSize` bytes stops the
scan with `ErrTooLong`. -/
def scanTokens : List UInt8 → List UInt8 → List GoString × Option Error
  | [], cur =>
    if cur = [] then ([], none)
    else if MaxScanTokenSize ≤ cur.length then ([], some Error.ErrTooLong)
    else ([dropCR cur], none)
  | c :: rest, cur =>
    if c = LF then
      if MaxScanTokenSize ≤ cur.length then ([], some Error.ErrTooLong)
      else
        match scanTokens rest [] with
        | (toks, err) => (dropCR cur :: toks, err)
    else scanTokens rest (cur ++ [c])

/-- The scan of a whole file: tokens and `scanner.Err()`. A failing `Read`
(`readErr`) ends the scan at once with that error. -/
def scanFile (readErr : Option Error) (f : File) : List GoString × Option Error :=
  match readErr with
  | some err => ([], some err)
  | none => scanTokens (f.data.drop f.pos) []

/-! ## The environment -/

/-- A `*mail.Email`. -/
structure Email where
  Name : GoString
  Address : GoString
deriving DecidableEq, Repr

/-- Call `mail.NewEmail(name, address)`. -/
def NewEmail (name address : GoString) : Email := { Name := name, Address := address }

/-- The message that `mail.NewSingleEmail` builds. -/
structure Message where
  sender : Email
  subject : GoString
  recipient : Email
  plainTextContent : GoString
  htmlContent : GoString
deriving DecidableEq, Repr

/-- Call `mail.NewSingleEmail(from, subject, to, plainTextContent, htmlContent)`. -/
def NewSingleEmail (sender : Email) (subject : GoString) (recipient : Email)
    (plainTextContent htmlContent : GoString) : Message :=
  { sender := sender, subject := subject, recipient := recipient,
    plainTextContent := plainTextContent, htmlContent := htmlContent }

/-- A DynamoDB item: attribute names and values. -/
abbrev Item := List (GoString × GoString)

/-- Everything the program takes from outside the repository. `κ` is the
state of the DynamoDB table `stories`, `μ` the state of the mail provider. -/
structure Env (κ μ : Type) where
  /-- the collector: what visiting a URL yields -/
  web : GoString → Visit
  /-- `os.Getenv("SENDGRID_KEY")` -/
  SENDGRID_KEY : GoString
  /-- error of `ttmp.New("text_email").Parse(text)` -/
  ttmpParse : GoString → Option Error
  /-- error of `htmp.New("html_email").Parse(text)` -/
  htmpParse : GoString → Option Error
  /-- `txtTmpl.Execute`: the bytes written to the buffer and the error -/
  ttmpExecute : GoString → List story → GoString × Option Error
  /-- `htmlTmpl.Execute`: the bytes written to the buffer and the error -/
  htmpExecute : GoString → List story → GoString × Option Error
  /-- the error of `os.OpenFile` on `.tbt`, if it fails -/
  openErr : Option Error
  /-- the error of reading `.tbt`, if it fails -/
  readErr : Option Error
  /-- how many bytes the device accepts before writes fail -/
  writeQuota : Option Nat
  /-- `dynamodbattribute.MarshalMap` -/
  MarshalMap : story → Item × Option Error
  /-- `svc.PutItem` on table `stories` -/
  PutItem : Item → κ → Option Error × κ
  /-- `svc.GetItem` on table `stories` with key `url`: `result.Item` and the error -/
  GetItem : GoString → κ → Item × Option Error
  /-- `sendgrid.NewSendClient(key).Send(message)` -/
  Send : GoString → Message → μ → Option Error × μ

/-- The calls that `run` makes, in order (a record kept for the proofs). -/
inductive Call where
  | getStories
  | filterStories
  | writeEmail
  | sendSummary (recipient : Email)
  | saveStories
deriving DecidableEq, Repr

/-- The state outside the process: the local file `.tbt` (`none`: absent),
the lines printed on standard output, the table, the mail provider, and the
record of calls. -/
structure World (κ μ : Type) where
  tbt : Option (List UInt8)
  stdout : List GoString
  db : κ
  mail : μ
  calls : List Call
deriving DecidableEq, Repr

/-- Call `fmt.Println(line)`. -/
def Println {κ μ : Type} (line : GoString) (w : World κ μ) : World κ μ :=
  { w with stdout := w.stdout ++ [line] }

/-- Appends a call to the record. -/
def World.log {κ μ : Type} (w : World κ μ) (c : Call) : World κ μ :=
  { w with calls := w.calls ++ [c] }

/-! ## Email renderer (main.go 164-219) -/

/-- Constant `htmlTemplate`. -/
def htmlTemplate : GoString := lit
   ("\n" ++
    "<html>\n" ++
    "  <meta charset=\"utf-8\">\n" ++
    "  <title>Kathryn\x27s Stories</title>\n" ++
    "  <body>\n" ++
    "    <div class=\"main\">\n" ++
    "      <h1>Kathryn\x27s Stories</h1>\n" ++
    "      <br><br>\n" ++
    "\n" ++
    "\n" ++
    "      <h1>Stories:</h1>\n" ++
    "      \x7b\x7brange .\x7d\x7d\n" ++
    "        <div>\n" ++
    "\t  <a href=\"\x7b\x7b.URL\x7d\x7d\">\x7b\x7b.Headline\x7d\x7d</a>\n" ++
    "\t</div>\n" ++
    "\t<div>\n" ++
    "\t  \x7b\x7b.Summary\x7d\x7d\n" ++
    "\t</div>\n" ++
    "      \x7b\x7bend\x7d\x7d\n" ++
    "    </div>\n" ++
    "  </body>\n" ++
    "</html>\n")

/-- Constant `txtTemplate`. -/
def txtTemplate : GoString := lit
   ("\n" ++
    "Kathryn\x27s Stories\n" ++
    "\n" ++
    "\x7b\x7brange .\x7d\x7d\n" ++
    "  \x7b\x7b.URL\x7d\x7d\n" ++
    "\x7b\x7bend\x7d\x7d\n")

/-- Function `writeEmail`. -/
def writeEmail {κ μ : Type} (env : Env κ μ) (stories : List story) :
    GoString × GoString × Option Error :=
  match env.ttmpParse txtTemplate with
  | some err => ([], [], some err)
  | none =>
    match env.htmpParse htmlTemplate with
    | some err => ([], [], some err)
    | none =>
      match env.ttmpExecute txtTemplate stories with
      | (_, some err) => ([], [], some err)
      | (txtContent, none) =>
        match env.htmpExecute htmlTemplate stories with
        | (_, some err) => ([], [], some err)
        | (htmlContent, none) => (txtContent, htmlContent, none)

/-! ## Interfaces (main.go 30-43) -/

/-- Interface `summarySender`. -/
structure summarySender (κ μ : Type) where
  sendSummary : Email → GoString → GoString → World κ μ → Option Error × World κ μ

/-- Interface `storyStorer`. -/
structure storyStorer (κ μ : Type) where
  saveStories : List story → World κ μ → Option Error × World κ μ
  filterStories : List story → World κ μ → (List story × Option Error) × World κ μ

/-- Record `subscriber`; the field `local` is `local_`. -/
structure subscriber (κ μ : Type) where
  local_ : Bool
  summarySender : summarySender κ μ
  storyStorer : storyStorer κ μ

/-! ## Senders (main.go 221-243) -/

/-- Method `(*sendgridSender).sendSummary` for a sender with key `key`. -/
def sendgridSender.sendSummary {κ μ : Type} (env : Env κ μ) (key : GoString)
    (recipient : Email) (txtContent htmlContent : GoString) (w : World κ μ) :
    Option Error × World κ μ :=
  let sender := NewEmail (lit "Russell Rollins") (lit "russell@russellrollins.com")
  let subject := lit "Kathryn\x27s Stories"
  let message := NewSingleEmail sender subject recipient txtContent htmlContent
  match env.Send key message w.mail with
  | (err, mail) => (err, { w with mail := mail })

/-- Method `(*localSender).sendSummary`. -/
def localSender.sendSummary {κ μ : Type} (_recipient : Email)
    (txtContent htmlContent : GoString) (w : World κ μ) : Option Error × World κ μ :=
  let w1 := Println (lit "Text Content") w
  let w2 := Println txtContent w1
  let w3 := Println (lit "HTML Content") w2
  let w4 := Println htmlContent w3
  (none, w4)

/-! ## DynamoDB store (main.go 245-287) -/

/-- Method `(*dynamoStorage).saveStories`, on the table. -/
def dynamoStorage.saveStories {κ μ : Type} (env : Env κ μ) : List story → κ → Option Error × κ
  | [], db => (none, db)
  | s :: rest, db =>
    match env.MarshalMap s with
    | (_, some err) => (some err, db)
    | (av, none) =>
      match env.PutItem av db with
      | (some err, db1) => (some err, db1)
      | (none, db1) => dynamoStorage.saveStories env rest db1

/-- The loop of `(*dynamoStorage).filterStories`; `newStories` is the slice
built so far. -/
def dynamoStorage.filterLoop {κ μ : Type} (env : Env κ μ) (db : κ) :
    List story → List story → List story × Option Error
  | [], newStories => (newStories, none)
  | s :: rest, newStories =>
    match env.GetItem s.URL db with
    | (_, some err) => ([], some err)
    | (item, none) =>
      if item.length = 0 then dynamoStorage.filterLoop env db rest (newStories ++ [s])
      else dynamoStorage.filterLoop env db rest newStories

/-- Method `(*dynamoStorage).filterStories`, on the table. -/
def dynamoStorage.filterStories {κ μ : Type} (env : Env κ μ) (stories : List story) (db : κ) :
    List story × Option Error :=
  dynamoStorage.filterLoop env db stories []

/-! ## Local store (main.go 289-340) -/

/-- The `for _, s := range stories` loop of `(*localStorage).saveStories`:
the error that ends it early, the writer and the file. -/
def localStorage.saveLoop : List story → Writer → File → Option Error × Writer × File
  | [], w, f => (none, w, f)
  | s :: rest, w, f =>
    match w.WriteString f (s.URL ++ [LF]) with
    | ((_, some err), w1, f1) => (some err, w1, f1)
    | ((_, none), w1, f1) => localStorage.saveLoop rest w1 f1

/-- Method `(*localStorage).saveStories` on a disk whose `.tbt` is `disk`:
the returned error and the disk afterwards (`defer f.Close()`). The result
of `w.Flush()` is discarded by the source. -/
def localStorage.saveStories (openErr : Option Error) (quota : Option Nat)
    (stories : List story) (disk : Option (List UInt8)) : Option Error × Option (List UInt8) :=
  match OpenFile openErr quota disk with
  | (.error err, disk1) => (some err, disk1)
  | (.ok f, _) =>
    let w := NewWriter
    match localStorage.saveLoop stories w f with
    | (some err, _, f1) => (some err, some f1.data)
    | (none, w1, f1) =>
      match w1.Flush f1 with
      | (_, _, f2) => (none, some f2.data)

/-- The inner loop of `(*localStorage).filterStories`: the value of `found`
after the scan of `knownURLs` for `url`. -/
def localStorage.found (url : GoString) : List GoString → Bool
  | [] => false
  | ku :: rest => if ku = url then true else localStorage.found url rest

/-- The outer loop of `(*localStorage).filterStories`; `newStories` is the
slice built so far. -/
def localStorage.filterLoop (knownURLs : List GoString) : List story → List story → List story
  | [], newStories => newStories
  | s :: rest, newStories =>
    if !localStorage.found s.URL knownURLs then
      localStorage.filterLoop knownURLs rest (newStories ++ [s])
    else localStorage.filterLoop knownURLs rest newStories

/-- Method `(*localStorage).filterStories` on a disk whose `.tbt` is `disk`:
the returned pair and the disk afterwards. -/
def localStorage.filterStories (openErr readErr : Option Error) (stories : List story)
    (disk : Option (List UInt8)) : (List story × Option Error) × Option (List UInt8) :=
  match OpenFile openErr none disk with
  | (.error err, disk1) => (([], some err), disk1)
  | (.ok f, _) =>
    match scanFile readErr f with
    | (_, some err) => (([], some err), some f.data)
    | (knownURLs, none) =>
      let newStories := localStorage.filterLoop knownURLs stories []
      ((newStories, none), some f.data)

/-! ## The two backends as interface values -/

/-- The value `&localSender{}`. -/
def localSender (κ μ : Type) : summarySender κ μ :=
  { sendSummary := localSender.sendSummary }

/-- The value `&sendgridSender{key: key}`. -/
def sendgridSender {κ μ : Type} (env : Env κ μ) (key : GoString) : summarySender κ μ :=
  { sendSummary := sendgridSender.sendSummary env key }

/-- The value `&localStorage{}`. -/
def localStorage {κ μ : Type} (env : Env κ μ) : storyStorer κ μ :=
  { saveStories := fun stories w =>
      match localStorage.saveStories env.openErr env.writeQuota stories w.tbt with
      | (err, disk) => (err, { w with tbt := disk })
    filterStories := fun stories w =>
      match localStorage.filterStories env.openErr env.readErr stories w.tbt with
      | (res, disk) => (res, { w with tbt := disk }) }

/-- The value `&dynamoStorage{svc: dynamodb.New(session.New())}`. -/
def dynamoStorage {κ μ : Type} (env : Env κ μ) : storyStorer κ μ :=
  { saveStories := fun stories w =>
      match dynamoStorage.saveStories env stories w.db with
      | (err, db) => (err, { w with db := db })
    filterStories := fun stories w => (dynamoStorage.filterStories env stories w.db, w) }

/-! ## Orchestrator (main.go 77-126) -/

/-- The slice `recipients` of `run`. -/
def recipients : List Email :=
  [NewEmail (lit "Russell Rollins") (lit "russell1124@gmail.com")]

/-- The `for _, r := range recipients` loop of `run`. -/
def sendLoop {κ μ : Type} (ss : summarySender κ μ) (txtRes htmlRes : GoString) :
    List Email → World κ μ → Option Error × World κ μ
  | [], w => (none, w)
  | r :: rest, w =>
    match ss.sendSummary r txtRes htmlRes (w.log (Call.sendSummary r)) with
    | (some err, w1) => (some err, w1)
    | (none, w1) => sendLoop ss txtRes htmlRes rest w1

/-- The body of `run` for a subscriber `sub` and a slice `rcpts` of
recipients. -/
def runSub {κ μ : Type} (env : Env κ μ) (sub : subscriber κ μ) (rcpts : List Email)
    (w : World κ μ) : Option Error × World κ μ :=
  let w1 := w.log Call.getStories
  match getStories env.web with
  | (_, some err) => (some err, w1)
  | (stories, none) =>
    match sub.storyStorer.filterStories stories (w1.log Call.filterStories) with
    | ((_, some err), w2) => (some err, w2)
    | ((newStories, none), w2) =>
      if newStories.length = 0 then (none, Println (lit "Nothing to do!") w2)
      else
        match writeEmail env newStories with
        | (_, _, some err) => (some err, w2.log Call.writeEmail)
        | (txtRes, htmlRes, none) =>
          match sendLoop sub.summarySender txtRes htmlRes rcpts (w2.log Call.writeEmail) with
          | (some err, w3) => (some err, w3)
          | (none, w3) =>
            match sub.storyStorer.saveStories newStories (w3.log Call.saveStories) with
            | (some err, w4) => (some err, w4)
            | (none, w4) => (none, w4)

/-- The subscriber that `run` builds for the flag `local`. -/
def newSubscriber {κ μ : Type} (env : Env κ μ) (local_ : Bool) : subscriber κ μ :=
  if local_ then
    { local_ := local_, summarySender := localSender κ μ, storyStorer := localStorage env }
  else
    { local_ := local_, summarySender := sendgridSender env env.SENDGRID_KEY,
      storyStorer := dynamoStorage env }

/-- Function `run` with the slice of recipients as a parameter. -/
def runTo {κ μ : Type} (env : Env κ μ) (local_ : Bool) (rcpts : List Email) (w : World κ μ) :
    Option Error × World κ μ :=
  let sub := newSubscriber env local_
  let w0 := if sub.local_ then Println (lit "Starting in local mode...") w else w
  runSub env sub rcpts w0

/-- Function `run`. -/
def run {κ μ : Type} (env : Env κ μ) (local_ : Bool) (w : World κ μ) : Option Error × World κ μ :=
  runTo env local_ recipients w

/-! ## Notions used in the statements -/

/-- The bytes that `localStorage.saveStories` hands to its writer: the URLs,
each followed by a line feed. -/
def urlLines (stories : List story) : List UInt8 :=
  stories.flatMap (fun s => s.URL ++ [LF])

/-- The bytes of a file that held `old` once `new` has been written at offset 0. -/
def overwrite (new old : List UInt8) : List UInt8 :=
  new ++ old.drop new.length

/-- The state of a writer on a device without faults, after `out` went into
it on a file that held `old`: some prefix of `out` is in the file from offset
0, the rest is in the buffer. -/
def WriterInv (old out : List UInt8) (w : Writer) (f : File) : Prop :=
  w.err = none ∧ f.quota = none ∧
    ∃ written, out = written ++ w.buf ∧ f.data = overwrite written old ∧
      f.pos = written.length

/-- The world in which `run` calls `filterStories`: after the banner of local
mode, with the calls to `getStories` and `filterStories` on record. -/
def beforeFilter {κ μ : Type} (local_ : Bool) (w : World κ μ) : World κ μ :=
  ((if local_ then Println (lit "Starting in local mode...") w else w).log
    Call.getStories).log Call.filterStories

/-! ## Concrete data for the instances -/

/-- The record that `e.Unmarshal` fills in for `elemStory1`. -/
def rawStory1 : story :=
  { URL := lit "/writers/story-1"
    Headline := lit "Big Story\nSome Author Byline"
    Summary := lit "Something happened." }

/-- The element of a story: its texts come with white space around them. -/
def elemStory1 : Element :=
  { href := lit "/writers/story-1"
    headline := lit "\n  Big Story\nSome Author Byline\n"
    summary := lit " Something happened.\n" }

/-- An element whose headline text starts with a line break. -/
def elemBlankHeadline : Element :=
  { href := lit "/writers/story-2"
    headline := lit "\nSome Author Byline"
    summary := lit "Something else happened." }

/-- An advertisement: no summary. -/
def elemAd : Element :=
  { href := lit "/ads/1", headline := lit "Buy now", summary := [] }

/-- An environment without faults: the author page holds one story and one
advertisement, the text template lists the URLs, the table is a list of
items and the mail provider keeps the accepted messages. -/
def env0 : Env (List Item) (List Message) :=
  { web := fun _ => { elements := [elemStory1, elemAd], err := none }
    SENDGRID_KEY := lit "key"
    ttmpParse := fun _ => none
    htmpParse := fun _ => none
    ttmpExecute := fun _ stories => (stories.flatMap (fun s => s.URL ++ [LF]), none)
    htmpExecute := fun _ stories => (stories.flatMap (fun s => s.Headline ++ [LF]), none)
    openErr := none
    readErr := none
    writeQuota := none
    MarshalMap := fun s =>
      ([(lit "url", s.URL), (lit "headline", s.Headline), (lit "summary", s.Summary)], none)
    PutItem := fun item db => (none, db ++ [item])
    GetItem := fun url db => ((db.find? (fun item => item.lookup (lit "url") == some url)).getD [], none)
    Send := fun _ message mail => (none, mail ++ [message]) }

/-- The environment `env0` with a page fetch that fails. -/
def envFetchFails : Env (List Item) (List Message) :=
  { env0 with web := fun _ => { elements := [], err := some (Error.other "Not Found") } }

/-- The environment `env0` with a page that holds `elemBlankHeadline` as well. -/
def envBlankHeadline : Env (List Item) (List Message) :=
  { env0 with
    web := fun _ => { elements := [elemStory1, elemAd, elemBlankHeadline], err := none } }

/-- A second recipient, for the instances. -/
def otherRecipient : Email := NewEmail (lit "Kathryn") (lit "kathryn@example.com")

/-- The environment `env0` with a mail provider that fails on every message
to `otherRecipient`. -/
def envSendFails : Env (List Item) (List Message) :=
  { env0 with
    Send := fun _ message mail =>
      if message.recipient = otherRecipient then (some (Error.other "connection refused"), mail)
      else (none, mail ++ [message]) }

/-- The environment `env0` with a device that accepts no more bytes. -/
def envDiskFull : Env (List Item) (List Message) :=
  { env0 with writeQuota := some 0 }

/-- A world with nothing in it and no `.tbt`. -/
def world0 : World (List Item) (List Message) :=
  { tbt := none, stdout := [], db := [], mail := [], calls := [] }

/-- A story as the scraper yields it, with URL `/a`. -/
def storyA : story :=
  { URL := lit "https://www.tampabay.com/a", Headline := lit "A", Summary := lit "a" }

/-- A story as the scraper yields it, with URL `/b`. -/
def storyB : story :=
  { URL := lit "https://www.tampabay.com/b", Headline := lit "B", Summary := lit "b" }

/-- A story as the scraper yields it, with URL `/c`. -/
def storyC : story :=
  { URL := lit "https://www.tampabay.com/c", Headline := lit "C", Summary := lit "c" }

/-- A `.tbt` that knows `storyA` and `storyB`. -/
def diskAB : Option (List UInt8) :=
  some (lit "https://www.tampabay.com/a\nhttps://www.tampabay.com/b\n")

/-- A story whose URL holds a line break. -/
def storyLineBreak : story :=
  { URL := lit "https://www.tampabay.com/a\nb", Headline := lit "A", Summary := lit "a" }

/-- A world whose `.tbt` and table already know the story of `env0`. -/
def worldKnown : World (List Item) (List Message) :=
  { tbt := some (lit "https://www.tampabay.com/writers/story-1\n")
    stdout := []
    db := [[(lit "url", lit "https://www.tampabay.com/writers/story-1")]]
    mail := []
    calls := [] }

/-! ## Scraper: lemmas -/

theorem Split_head_opt (s : GoString) (sep : UInt8) :
    (Split s sep).head? = some (s.takeWhile (fun c => c ≠ sep)) := by
  induction s with
  | nil => simp [Split]
  | cons c cs ih =>
    by_cases hc : c = sep
    · simp [Split, hc]
    · simp only [Split, hc, if_false]
      cases hsp : Split cs sep with
      | nil => simp [hsp] at ih
      | cons hd tl =>
        simp [hsp] at ih
        simp [ih, hc]

theorem Split_head (s : GoString) (sep : UInt8) (h : Split s sep ≠ []) :
    (Split s sep).head h = s.takeWhile (fun c => c ≠ sep) := by
  have h1 := Split_head_opt s sep
  rw [List.head?_eq_head h] at h1
  exact Option.some.inj h1

theorem Split_ne_nil (s : GoString) (sep : UInt8) : Split s sep ≠ [] := by
  cases s with
  | nil => simp [Split]
  | cons c cs =>
    simp only [Split]
    split
    · simp
    · split <;> simp

/-- The pieces of `Split` joined with the separator give the string back. -/
theorem Split_intercalate (s : GoString) (sep : UInt8) :
    [sep].intercalate (Split s sep) = s := by
  induction s with
  | nil => simp [Split, List.intercalate]
  | cons c cs ih =>
    by_cases hc : c = sep
    · cases hsp : Split cs sep with
      | nil => exact absurd hsp (Split_ne_nil cs sep)
      | cons hd tl =>
        rw [hsp] at ih
        simp only [Split, hc, if_true, hsp]
        simp only [List.intercalate, List.intersperse, List.flatten_cons, List.nil_append,
          List.singleton_append] at ih ⊢
        rw [ih]
    · cases hsp : Split cs sep with
      | nil => exact absurd hsp (Split_ne_nil cs sep)
      | cons hd tl =>
        rw [hsp] at ih
        simp only [Split, hc, if_false, hsp]
        cases tl with
        | nil =>
          simp only [List.intercalate, List.intersperse, List.flatten_cons, List.flatten_nil,
            List.append_nil] at ih ⊢
          rw [ih]
        | cons t2 tl2 =>
          simp only [List.intercalate, List.intersperse, List.flatten_cons,
            List.cons_append] at ih ⊢
          rw [ih]

/-- The models of `strings.Split` and of the line scanner on small inputs. -/
theorem library_models_examples :
    Split (lit "Big Story\nSome Author Byline") LF
        = [lit "Big Story", lit "Some Author Byline"] ∧
      Split (lit "a\n\nb\n") LF = [lit "a", [], lit "b", []] ∧
      Split [] LF = [[]] ∧
      scanTokens (lit "a\r\n\nb\r") [] = ([lit "a", [], lit "b"], none) ∧
      scanTokens (lit "a\n") [] = ([lit "a"], none) ∧
      scanTokens [] [] = ([], none) := by
  decide

theorem onHTML_of_valid (stories : List story) (r : story) (h : r.valid = true) :
    onHTML stories r = stories ++ [normalised r] := by
  simp only [onHTML, h, normalised]
  simp [Split_head]

theorem onHTML_of_not_valid (stories : List story) (r : story) (h : r.valid = false) :
    onHTML stories r = stories := by
  simp [onHTML, h]

theorem foldl_onHTML (elements : List Element) (stories : List story) :
    elements.foldl (fun stories e => onHTML stories (Unmarshal e)) stories
      = stories ++ ((elements.map Unmarshal).filter (fun r => r.valid)).map normalised := by
  induction elements generalizing stories with
  | nil => simp
  | cons e rest ih =>
    cases h : (Unmarshal e).valid
    · simp [List.foldl_cons, onHTML_of_not_valid _ _ h, ih, h]
    · simp [List.foldl_cons, onHTML_of_valid _ _ h, ih, h]

theorem getStories_eq (web : GoString → Visit) :
    getStories web
      = (((((web authorURL).elements).map Unmarshal).filter (fun r => r.valid)).map normalised,
          none) := by
  simp [getStories, foldl_onHTML]

/-! ## `strings.TrimSpace`: lemmas -/

theorem whiteSpace_pos : ∀ p ∈ whiteSpace, 1 ≤ p.length := by decide

theorem leadingSpace_pos (s : GoString) (p : List UInt8) (h : leadingSpace s = some p) :
    1 ≤ p.length :=
  whiteSpace_pos p (List.mem_of_find?_eq_some h)

theorem trailingSpace_pos (s : GoString) (p : List UInt8) (h : trailingSpace s = some p) :
    1 ≤ p.length :=
  whiteSpace_pos p (List.mem_of_find?_eq_some h)

/-- The loop of `trimLeft` ends because no white space is left in front. -/
theorem trimLeft_done (fuel : Nat) :
    ∀ s : GoString, s.length ≤ fuel → leadingSpace (trimLeft fuel s) = none := by
  induction fuel with
  | zero =>
    intro s hs
    have : s = [] := List.length_eq_zero.1 (Nat.le_zero.1 hs)
    subst this
    decide
  | succ k ih =>
    intro s hs
    cases h : leadingSpace s with
    | none => simp [trimLeft, h]
    | some p =>
      have hp := leadingSpace_pos s p h
      simp only [trimLeft, h]
      apply ih
      simp only [List.length_drop]
      omega

/-- The loop of `trimRight` ends because no white space is left at the end. -/
theorem trimRight_done (fuel : Nat) :
    ∀ s : GoString, s.length ≤ fuel → trailingSpace (trimRight fuel s) = none := by
  induction fuel with
  | zero =>
    intro s hs
    have : s = [] := List.length_eq_zero.1 (Nat.le_zero.1 hs)
    subst this
    decide
  | succ k ih =>
    intro s hs
    cases h : trailingSpace s with
    | none => simp [trimRight, h]
    | some p =>
      have hp := trailingSpace_pos s p h
      simp only [trimRight, h]
      apply ih
      simp only [List.length_take]
      omega

theorem trimRight_take (fuel : Nat) :
    ∀ s : GoString, ∃ n, trimRight fuel s = s.take n := by
  induction fuel with
  | zero => intro s; exact ⟨s.length, by simp [trimRight]⟩
  | succ k ih =>
    intro s
    cases h : trailingSpace s with
    | none => exact ⟨s.length, by simp [trimRight, h]⟩
    | some p =>
      obtain ⟨n, hn⟩ := ih (s.take (s.length - p.length))
      exact ⟨min n (s.length - p.length), by simp [trimRight, h, hn, List.take_take]⟩

theorem leadingSpace_none_head (s : GoString) (h : leadingSpace s = none) :
    s.head? ≠ some LF := by
  intro hh
  cases s with
  | nil => simp at hh
  | cons c cs =>
    simp only [List.head?_cons, Option.some.injEq] at hh
    subst hh
    have hmem : ([LF] : List UInt8) ∈ whiteSpace := by decide
    have := List.find?_eq_none.1 h [LF] hmem
    simp at this

/-- Trimmed text does not begin with a line feed. -/
theorem TrimSpace_head (s : GoString) : (TrimSpace s).head? ≠ some LF := by
  have h1 := leadingSpace_none_head _ (trimLeft_done s.length s (Nat.le_refl _))
  obtain ⟨n, hn⟩ := trimRight_take s.length (trimLeft s.length s)
  unfold TrimSpace
  rw [hn]
  cases n with
  | zero => simp
  | succ m =>
    cases ht : trimLeft s.length s with
    | nil => simp
    | cons c cs =>
      rw [ht] at h1
      simpa using h1

/-- The model of `strings.TrimSpace` on small inputs. -/
theorem TrimSpace_examples :
    TrimSpace (lit "\n\t Big Story\nSome Author Byline \r\n") = lit "Big Story\nSome Author Byline" ∧
      TrimSpace (lit " \n\t ") = [] ∧
      TrimSpace (lit " a b　 ") = lit "a b" ∧
      TrimSpace (lit "\u00e9 ") = lit "\u00e9" ∧
      TrimSpace [] = [] ∧
      Unmarshal elemStory1 = rawStory1 := by
  decide

theorem takeWhile_ne_decomp (a : UInt8) (l : List UInt8) :
    a ∉ l.takeWhile (fun c => c ≠ a) ∧
      (l = l.takeWhile (fun c => c ≠ a) ∨
        ∃ rest, l = l.takeWhile (fun c => c ≠ a) ++ a :: rest) := by
  induction l with
  | nil => simp
  | cons c cs ih =>
    by_cases hc : c = a
    · subst hc
      simp
    · obtain ⟨h1, h2⟩ := ih
      have hc1 : ¬ a = c := fun h => hc h.symm
      refine ⟨?_, ?_⟩
      · simp only [List.takeWhile_cons, ne_eq, hc, not_false_eq_true, decide_True, if_true,
          List.mem_cons, not_or]
        exact ⟨hc1, h1⟩
      · rcases h2 with h2 | ⟨rest, h2⟩
        · left
          simp only [List.takeWhile_cons, ne_eq, hc, not_false_eq_true, decide_True, if_true]
          exact congrArg (List.cons c) h2
        · right
          refine ⟨rest, ?_⟩
          simp only [List.takeWhile_cons, ne_eq, hc, not_false_eq_true, decide_True, if_true,
            List.cons_append]
          exact congrArg (List.cons c) h2

theorem valid_iff (r : story) :
    r.valid = true ↔ r.URL ≠ [] ∧ r.Headline ≠ [] ∧ r.Summary ≠ [] := by
  simp [story.valid, and_assoc]

/-! ## Scraper: claims -/

/-- C10: a raw record `r` that passes the validity check is appended by the
callback as the story whose URL is `"https://www.tampabay.com"` followed by
the href of `r`, whose headline is the part of the headline of `r` before its
first line break (all of it when there is none, so it holds no line break),
and whose summary is the summary of `r` unchanged. -/
theorem onHTML_normalises (stories : List story) (r : story) (h : r.valid = true) :
    onHTML stories r
        = stories ++ [{ URL := lit "https://www.tampabay.com" ++ r.URL
                        Headline := r.Headline.takeWhile (fun c => c ≠ LF)
                        Summary := r.Summary }]
      ∧ LF ∉ r.Headline.takeWhile (fun c => c ≠ LF)
      ∧ (r.Headline = r.Headline.takeWhile (fun c => c ≠ LF)
          ∨ ∃ rest, r.Headline = r.Headline.takeWhile (fun c => c ≠ LF) ++ LF :: rest) := by
  refine ⟨?_, takeWhile_ne_decomp LF r.Headline⟩
  rw [onHTML_of_valid stories r h]
  rfl

/-- C10 at the examples of the specification: href `/writers/story-1` and headline
`Big Story\nSome Author Byline`. -/
theorem onHTML_normalises_witness :
    rawStory1.valid = true ∧
      onHTML [] rawStory1
        = [{ URL := lit "https://www.tampabay.com/writers/story-1"
             Headline := lit "Big Story"
             Summary := lit "Something happened." }] := by
  refine ⟨by decide, ?_⟩
  rw [(onHTML_normalises [] rawStory1 (by decide)).1]
  decide

/-- C4: every story in the result of `getStories` has a non-empty URL, a
non-empty headline and a non-empty summary, and is the normalisation of the
record of an element of the page that passed the validity check; no record
with one of the three fields empty is in the output. -/
theorem getStories_valid (web : GoString → Visit) (s : story)
    (hs : s ∈ (getStories web).1) :
    s.URL ≠ [] ∧ s.Headline ≠ [] ∧ s.Summary ≠ [] ∧
      ∃ e ∈ (web authorURL).elements,
        (Unmarshal e).URL ≠ [] ∧ (Unmarshal e).Headline ≠ [] ∧ (Unmarshal e).Summary ≠ [] ∧
        s.URL = baseURL ++ (Unmarshal e).URL ∧
        s.Headline = (Unmarshal e).Headline.takeWhile (fun c => c ≠ LF) ∧
        s.Summary = (Unmarshal e).Summary := by
  rw [getStories_eq] at hs
  simp only [List.mem_map, List.mem_filter] at hs
  obtain ⟨r, ⟨⟨e, he, rfl⟩, hv⟩, rfl⟩ := hs
  obtain ⟨h1, h2, h3⟩ := (valid_iff (Unmarshal e)).1 hv
  have hb : baseURL ≠ [] := by decide
  refine ⟨?_, ?_, h3, e, he, h1, h2, h3, rfl, rfl, rfl⟩
  · simp [normalised, hb]
  · have hhead := TrimSpace_head e.headline
    have h2a : TrimSpace e.headline ≠ [] := h2
    show (TrimSpace e.headline).takeWhile (fun c => c ≠ LF) ≠ []
    cases hh : TrimSpace e.headline with
    | nil => exact absurd hh h2a
    | cons c cs =>
      rw [hh] at hhead
      have hc : c ≠ LF := fun e => hhead (by simp [e])
      simp [hc]

/-- C4 at a page with a story, an advertisement and a story whose headline
text starts with a line break: the latter comes out with the headline
`Some Author Byline`, the advertisement does not come out. -/
theorem getStories_valid_witness :
    (getStories envBlankHeadline.web).1
        = [normalised rawStory1,
           { URL := lit "https://www.tampabay.com/writers/story-2"
             Headline := lit "Some Author Byline"
             Summary := lit "Something else happened." }] ∧
      normalised (Unmarshal elemBlankHeadline) ∈ (getStories envBlankHeadline.web).1 ∧
      ((normalised (Unmarshal elemBlankHeadline)).URL ≠ [] ∧
        (normalised (Unmarshal elemBlankHeadline)).Headline ≠ [] ∧
        (normalised (Unmarshal elemBlankHeadline)).Summary ≠ [] ∧
        ∃ e ∈ (envBlankHeadline.web authorURL).elements,
          (Unmarshal e).URL ≠ [] ∧ (Unmarshal e).Headline ≠ [] ∧ (Unmarshal e).Summary ≠ [] ∧
          (normalised (Unmarshal elemBlankHeadline)).URL = baseURL ++ (Unmarshal e).URL ∧
          (normalised (Unmarshal elemBlankHeadline)).Headline
            = (Unmarshal e).Headline.takeWhile (fun c => c ≠ LF) ∧
          (normalised (Unmarshal elemBlankHeadline)).Summary = (Unmarshal e).Summary) :=
  ⟨by decide, by decide,
    getStories_valid envBlankHeadline.web (normalised (Unmarshal elemBlankHeadline)) (by decide)⟩

/-- C5: `getStories` returns a nil error whatever the collector reports. At
a fetch that fails with `Not Found` it returns no stories and no error, and
`run` then ends with a nil error after printing `Nothing to do!`. -/
theorem getStories_drops_visit_error :
    (envFetchFails.web authorURL).err = some (Error.other "Not Found") ∧
      getStories envFetchFails.web = ([], none) ∧
      (run envFetchFails true world0).1 = none ∧
      (run envFetchFails true world0).2.stdout
        = [lit "Starting in local mode...", lit "Nothing to do!"] ∧
      (run envFetchFails false world0).1 = none := by
  decide

/-! ## Local store, filterStories: lemmas -/

theorem found_iff (url : GoString) (knownURLs : List GoString) :
    localStorage.found url knownURLs = true ↔ url ∈ knownURLs := by
  induction knownURLs with
  | nil => simp [localStorage.found]
  | cons ku rest ih =>
    by_cases h : ku = url
    · simp [localStorage.found, h]
    · have h1 : ¬ url = ku := fun e => h e.symm
      simp [localStorage.found, h, h1, ih]

theorem filterLoop_eq (knownURLs : List GoString) (stories newStories : List story) :
    localStorage.filterLoop knownURLs stories newStories
      = newStories ++ stories.filter (fun c => decide (c.URL ∉ knownURLs)) := by
  induction stories generalizing newStories with
  | nil => simp [localStorage.filterLoop]
  | cons s rest ih =>
    by_cases h : s.URL ∈ knownURLs
    · have hf := (found_iff s.URL knownURLs).2 h
      simp [localStorage.filterLoop, hf, ih, h]
    · have hf : localStorage.found s.URL knownURLs = false := by
        cases hb : localStorage.found s.URL knownURLs
        · rfl
        · exact absurd ((found_iff s.URL knownURLs).1 hb) h
      simp [localStorage.filterLoop, hf, ih, h]

theorem filterStories_of_scan (C : List story) (disk : Option (List UInt8)) (K : List GoString)
    (hK : scanTokens (disk.getD []) [] = (K, none)) :
    (localStorage.filterStories none none C disk).1
      = (C.filter (fun c => decide (c.URL ∉ K)), none) := by
  simp [localStorage.filterStories, OpenFile, scanFile, hK, filterLoop_eq]

theorem filterStories_disk (openErr readErr : Option Error) (C : List story)
    (disk : Option (List UInt8)) :
    (localStorage.filterStories openErr readErr C disk).2
      = (if openErr.isSome then disk else some (disk.getD [])) := by
  cases openErr with
  | some e => simp [localStorage.filterStories, OpenFile]
  | none =>
    cases hs : scanFile readErr { data := disk.getD [], pos := 0, quota := none } with
    | mk K err =>
      cases err with
      | none => simp [localStorage.filterStories, OpenFile, hs]
      | some e => simp [localStorage.filterStories, OpenFile, hs]

/-! ## Local store, filterStories: claims -/

/-- C1: when `.tbt` is opened and read without error and its lines are `K`,
`localStorage.filterStories(C)` returns, with a nil error, exactly the
stories of `C` whose URL is not a line of `K`, in the order of `C`, duplicates
kept. -/
theorem filterStories_spec (C : List story) (disk : Option (List UInt8)) (K : List GoString)
    (hK : scanTokens (disk.getD []) [] = (K, none)) :
    (localStorage.filterStories none none C disk).1
      = (C.filter (fun c => decide (c.URL ∉ K)), none) :=
  filterStories_of_scan C disk K hK

/-- C1 on a `.tbt` that knows `/a` and `/b`, with candidates `/c`, `/a`, `/c`. -/
theorem filterStories_spec_witness :
    scanTokens (diskAB.getD []) [] = ([storyA.URL, storyB.URL], none) ∧
      (localStorage.filterStories none none [storyC, storyA, storyC] diskAB).1
        = ([storyC, storyC], none) := by
  refine ⟨by decide, ?_⟩
  rw [filterStories_spec [storyC, storyA, storyC] diskAB [storyA.URL, storyB.URL] (by decide)]
  decide

/-- C8, as the code has it: `localStorage.filterStories` leaves the bytes of
an existing `.tbt` and a `.tbt` that cannot be opened as they are, and creates
a missing `.tbt` empty; the known bytes are the same before and after, and a
second call with the same candidates returns what the first call returned and
changes nothing. -/
theorem filterStories_frame (openErr readErr : Option Error) (C : List story)
    (disk : Option (List UInt8)) :
    (localStorage.filterStories openErr readErr C disk).2
        = (if openErr.isSome then disk else some (disk.getD [])) ∧
      ((localStorage.filterStories openErr readErr C disk).2).getD [] = disk.getD [] ∧
      localStorage.filterStories openErr readErr C
          (localStorage.filterStories openErr readErr C disk).2
        = localStorage.filterStories openErr readErr C disk := by
  cases openErr with
  | some e => simp [localStorage.filterStories, OpenFile]
  | none =>
    cases hs : scanFile readErr { data := disk.getD [], pos := 0, quota := none } with
    | mk K err =>
      cases err with
      | none => simp [localStorage.filterStories, OpenFile, hs]
      | some e => simp [localStorage.filterStories, OpenFile, hs]

/-- C8 as stated fails when `.tbt` does not exist: `filterStories` creates it. -/
theorem filterStories_creates_file :
    (localStorage.filterStories none none [] none).2 = some [] ∧
      (localStorage.filterStories none none [] none).2 ≠ none ∧
      (((localStorage env0).filterStories [] world0).2).tbt ≠ world0.tbt := by
  decide

/-! ## Local store, saveStories: the two defects -/

/-- C2: `localStorage.saveStories` opens `.tbt` at offset 0 without
`O_APPEND`, so it writes over the known URLs instead of after them. On a file
that knows `/a` and `/b`, saving `/c` returns nil and leaves a file that knows
`/c` and `/b`: `/a`, known before the save, is a new story after it. -/
theorem saveStories_overwrites :
    localStorage.saveStories none none [storyC] diskAB
        = (none, some (lit "https://www.tampabay.com/c\nhttps://www.tampabay.com/b\n")) ∧
      scanTokens (diskAB.getD []) [] = ([storyA.URL, storyB.URL], none) ∧
      scanTokens ((localStorage.saveStories none none [storyC] diskAB).2.getD []) []
        = ([storyC.URL, storyB.URL], none) ∧
      (localStorage.filterStories none none [storyA] diskAB).1 = ([], none) ∧
      (localStorage.filterStories none none [storyA]
          (localStorage.saveStories none none [storyC] diskAB).2).1 = ([storyA], none) := by
  decide

/-- C9: `localStorage.saveStories` discards the result of `w.Flush()`. On a
device that accepts no more bytes the URL of `/c` stays in the buffer of the
writer, the flush fails, and `saveStories` returns nil with `.tbt` unchanged;
`run` in local mode then ends with a nil error although nothing was stored. -/
theorem saveStories_ignores_flush_error :
    (match localStorage.saveLoop [storyC] NewWriter
          { data := diskAB.getD [], pos := 0, quota := some 0 } with
      | (err, w, f) => (err, (w.Flush f).1))
        = (none, some (Error.other "no space left on device")) ∧
      localStorage.saveStories none (some 0) [storyC] diskAB = (none, diskAB) ∧
      (run envDiskFull true world0).1 = none ∧
      (run envDiskFull true world0).2.tbt = some [] ∧
      (run envDiskFull true world0).2.calls
        = [Call.getStories, Call.filterStories, Call.writeEmail,
           Call.sendSummary (NewEmail (lit "Russell Rollins") (lit "russell1124@gmail.com")),
           Call.saveStories] := by
  decide

/-! ## `bufio.Writer` on a device without faults -/

theorem overwrite_write (written p old : List UInt8) :
    (overwrite written old).take written.length ++ p
        ++ (overwrite written old).drop (written.length + p.length)
      = overwrite (written ++ p) old := by
  simp [overwrite, List.take_append_eq_append_take, List.drop_append_eq_append_drop,
    List.drop_drop, Nat.add_comm]

theorem Flush_inv (old out : List UInt8) (w : Writer) (f : File)
    (h : WriterInv old out w f) :
    ∃ w1 f1, w.Flush f = (none, w1, f1) ∧ w1.buf = [] ∧ WriterInv old out w1 f1 := by
  obtain ⟨he, hq, written, hout, hdata, hpos⟩ := h
  by_cases hb : w.buf.length = 0
  · have hnil : w.buf = [] := List.length_eq_zero.1 hb
    refine ⟨w, f, ?_, hnil, he, hq, written, hout, hdata, hpos⟩
    simp [Writer.Flush, he, hb]
  · refine ⟨{ buf := [], err := none },
      { data := f.data.take f.pos ++ w.buf ++ f.data.drop (f.pos + w.buf.length)
        pos := f.pos + w.buf.length
        quota := none }, ?_, rfl, rfl, rfl, written ++ w.buf, ?_, ?_, ?_⟩
    · simp [Writer.Flush, he, hb, File.Write, hq]
    · simp [hout]
    · simp only [hdata, hpos]
      exact overwrite_write written w.buf old
    · simp [hpos]

theorem writeLoop_inv (old : List UInt8) (fuel : Nat) :
    ∀ (out : List UInt8) (w : Writer) (f : File) (s : GoString) (nn : Nat),
      WriterInv old out w f →
      (s.length + 2 ≤ fuel ∨ (w.buf = [] ∧ s.length + 1 ≤ fuel)) →
      ∃ w1 f1 s1 nn1 taken, Writer.writeLoop fuel w f s nn = (w1, f1, s1, nn1) ∧
        s = taken ++ s1 ∧ WriterInv old (out ++ taken) w1 f1 ∧ s1.length ≤ w1.Available := by
  induction fuel with
  | zero =>
    intro out w f s nn _ hfuel
    rcases hfuel with h | ⟨_, h⟩ <;> omega
  | succ k ih =>
    intro out w f s nn hinv hfuel
    by_cases hc : s.length > w.Available ∧ w.err = none
    · have hlt : w.Available < s.length := hc.1
      have hmin : min s.length w.Available = w.Available := Nat.min_eq_right (Nat.le_of_lt hlt)
      have hinv1 : WriterInv old (out ++ s.take w.Available)
          { w with buf := w.buf ++ s.take w.Available } f := by
        obtain ⟨he, hq, written, hout, hdata, hpos⟩ := hinv
        exact ⟨he, hq, written, by simp [hout], hdata, hpos⟩
      obtain ⟨w2, f2, hfl, hbuf2, hinv2⟩ := Flush_inv old _ _ f hinv1
      have hfuel2 : (s.drop w.Available).length + 2 ≤ k
          ∨ (w2.buf = [] ∧ (s.drop w.Available).length + 1 ≤ k) := by
        right
        refine ⟨hbuf2, ?_⟩
        rcases hfuel with h | ⟨hb, h⟩
        · simp only [List.length_drop]; omega
        · have hav : w.Available = defaultBufSize := by simp [Writer.Available, hb]
          have : defaultBufSize = 4096 := rfl
          simp only [List.length_drop]; omega
      obtain ⟨w3, f3, s3, nn3, taken, hrun, hs, hinv3, hav3⟩ :=
        ih (out ++ s.take w.Available) w2 f2 (s.drop w.Available) (nn + w.Available) hinv2 hfuel2
      refine ⟨w3, f3, s3, nn3, s.take w.Available ++ taken, ?_, ?_, ?_, hav3⟩
      · have hfl1 := hfl
        rw [hc.2] at hfl1
        simp [Writer.writeLoop, hc, hmin, hfl1, hrun]
      · rw [List.append_assoc, ← hs, List.take_append_drop]
      · simpa [List.append_assoc] using hinv3
    · refine ⟨w, f, s, nn, [], ?_, by simp, by simpa using hinv, ?_⟩
      · simp [Writer.writeLoop, hc]
      · have he := hinv.1
        simp only [he, and_true, not_lt] at hc
        exact hc

theorem WriteString_inv (old out : List UInt8) (w : Writer) (f : File) (s : GoString)
    (h : WriterInv old out w f) :
    ∃ n w1 f1, w.WriteString f s = ((n, none), w1, f1) ∧ WriterInv old (out ++ s) w1 f1 := by
  obtain ⟨w1, f1, s1, nn1, taken, hrun, hs, hinv, hav⟩ :=
    writeLoop_inv old (s.length + 2) out w f s 0 h (Or.inl (Nat.le_refl _))
  have he := hinv.1
  have hmin : min s1.length w1.Available = s1.length := Nat.min_eq_left hav
  refine ⟨nn1 + s1.length, { w1 with buf := w1.buf ++ s1 }, f1, ?_, ?_⟩
  · simp [Writer.WriteString, hrun, he, hmin]
  · obtain ⟨he1, hq, written, hout, hdata, hpos⟩ := hinv
    refine ⟨he1, hq, written, ?_, hdata, hpos⟩
    show out ++ s = written ++ (w1.buf ++ s1)
    rw [hs, ← List.append_assoc, hout, List.append_assoc]

theorem saveLoop_inv (old : List UInt8) (stories : List story) :
    ∀ (out : List UInt8) (w : Writer) (f : File), WriterInv old out w f →
      ∃ w1 f1, localStorage.saveLoop stories w f = (none, w1, f1) ∧
        WriterInv old (out ++ urlLines stories) w1 f1 := by
  induction stories with
  | nil =>
    intro out w f h
    exact ⟨w, f, by simp [localStorage.saveLoop], by simpa [urlLines] using h⟩
  | cons s rest ih =>
    intro out w f h
    obtain ⟨n, w1, f1, hw, hinv1⟩ := WriteString_inv old out w f (s.URL ++ [LF]) h
    obtain ⟨w2, f2, hl, hinv2⟩ := ih _ w1 f1 hinv1
    refine ⟨w2, f2, ?_, ?_⟩
    · simp [localStorage.saveLoop, hw, hl]
    · simpa [urlLines, List.append_assoc] using hinv2

/-- On a device without faults `localStorage.saveStories` returns nil and
leaves the URLs, one per line, written from offset 0 over the old bytes. -/
theorem saveStories_eq (stories : List story) (disk : Option (List UInt8)) :
    localStorage.saveStories none none stories disk
      = (none, some (overwrite (urlLines stories) (disk.getD []))) := by
  have h0 : WriterInv (disk.getD []) [] NewWriter
      { data := disk.getD [], pos := 0, quota := none } :=
    ⟨rfl, rfl, [], rfl, by simp [overwrite], rfl⟩
  obtain ⟨w1, f1, hl, hinv1⟩ := saveLoop_inv (disk.getD []) stories [] _ _ h0
  obtain ⟨w2, f2, hfl, hbuf, hinv2⟩ := Flush_inv _ _ w1 f1 hinv1
  obtain ⟨_, _, written, hout, hdata, _⟩ := hinv2
  have hw : written = urlLines stories := by simpa [hbuf] using hout.symm
  simp [localStorage.saveStories, OpenFile, hl, hfl, hdata, hw]

theorem Flush_err_or_empty (w : Writer) (f : File) :
    (w.Flush f).2.1.err ≠ none ∨ (w.Flush f).2.1.buf = [] := by
  unfold Writer.Flush
  cases he : w.err with
  | some e => left; simp [he]
  | none =>
    by_cases hb : w.buf.length = 0
    · right; simp [hb, List.length_eq_zero.1 hb]
    · simp only [hb, if_false]
      generalize f.Write w.buf = r
      obtain ⟨⟨n, err⟩, f1⟩ := r
      simp only
      cases (if n < w.buf.length ∧ err = none then some Error.ErrShortWrite else err) with
      | some e => left; simp
      | none => right; simp

/-- The fuel of `WriteString` is enough on every device: the loop of
`writeLoop` is left because its condition is false. -/
theorem writeLoop_exits (fuel : Nat) :
    ∀ (w : Writer) (f : File) (s : GoString) (nn : Nat),
      (s.length + 2 ≤ fuel ∨ (w.buf = [] ∧ s.length + 1 ≤ fuel)
        ∨ (w.err ≠ none ∧ 1 ≤ fuel)) →
      ¬ ((Writer.writeLoop fuel w f s nn).2.2.1.length
            > (Writer.writeLoop fuel w f s nn).1.Available
          ∧ (Writer.writeLoop fuel w f s nn).1.err = none) := by
  induction fuel with
  | zero =>
    intro w f s nn hfuel
    rcases hfuel with h | ⟨_, h⟩ | ⟨_, h⟩ <;> omega
  | succ k ih =>
    intro w f s nn hfuel
    by_cases hc : s.length > w.Available ∧ w.err = none
    · have hlt : w.Available < s.length := hc.1
      have hmin : min s.length w.Available = w.Available := Nat.min_eq_right (Nat.le_of_lt hlt)
      have hk : 1 ≤ k := by
        rcases hfuel with h | ⟨hb, h⟩ | ⟨he, _⟩
        · omega
        · have hav : w.Available = defaultBufSize := by simp [Writer.Available, hb]
          have : defaultBufSize = 4096 := rfl
          omega
        · exact absurd hc.2 he
      have hstep : Writer.writeLoop (k + 1) w f s nn
          = Writer.writeLoop k
              (({ w with buf := w.buf ++ s.take w.Available } : Writer).Flush f).2.1
              (({ w with buf := w.buf ++ s.take w.Available } : Writer).Flush f).2.2
              (s.drop w.Available) (nn + w.Available) := by
        simp [Writer.writeLoop, hc, hmin]
      rw [hstep]
      apply ih
      right
      rcases Flush_err_or_empty { w with buf := w.buf ++ s.take w.Available } f with he | hb
      · right; exact ⟨he, hk⟩
      · left
        refine ⟨hb, ?_⟩
        rcases hfuel with h | ⟨hb0, h⟩ | ⟨he, _⟩
        · simp only [List.length_drop]; omega
        · have hav : w.Available = defaultBufSize := by simp [Writer.Available, hb0]
          have : defaultBufSize = 4096 := rfl
          simp only [List.length_drop]; omega
        · exact absurd hc.2 he
    · simp [Writer.writeLoop, hc]

/-- The loop of `WriteString` ends by its condition with the fuel that
`WriteString` gives it. -/
theorem WriteString_loop_done (b : Writer) (f : File) (s : GoString) :
    ¬ ((Writer.writeLoop (s.length + 2) b f s 0).2.2.1.length
          > (Writer.writeLoop (s.length + 2) b f s 0).1.Available
        ∧ (Writer.writeLoop (s.length + 2) b f s 0).1.err = none) :=
  writeLoop_exits (s.length + 2) b f s 0 (Or.inl (Nat.le_refl _))

/-! ## `bufio.Scanner`: lemmas -/

theorem scanTokens_line (u rest : List UInt8) (h : LF ∉ u) :
    ∀ cur, scanTokens (u ++ LF :: rest) cur
      = if MaxScanTokenSize ≤ (cur ++ u).length then ([], some Error.ErrTooLong)
        else (dropCR (cur ++ u) :: (scanTokens rest []).1, (scanTokens rest []).2) := by
  induction u with
  | nil =>
    intro cur
    simp [scanTokens]
  | cons c u ih =>
    intro cur
    have hc : c ≠ LF := fun e => h (by simp [e])
    have hu : LF ∉ u := fun e => h (by simp [e])
    have := ih hu (cur ++ [c])
    simp only [List.cons_append, scanTokens, hc, if_false]
    simpa using this

theorem dropCR_eq (u : List UInt8) (h : u.getLast? ≠ some CR) : dropCR u = u := by
  simp [dropCR, h]

theorem scanTokens_urlLines (rest : List UInt8) (S : List story)
    (hLF : ∀ s ∈ S, LF ∉ s.URL) (hlen : ∀ s ∈ S, s.URL.length < MaxScanTokenSize) :
    scanTokens (urlLines S ++ rest) []
      = (S.map (fun s => dropCR s.URL) ++ (scanTokens rest []).1, (scanTokens rest []).2) := by
  induction S with
  | nil => simp [urlLines]
  | cons s S ih =>
    have h1 : LF ∉ s.URL := hLF s (by simp)
    have h2 : ¬ MaxScanTokenSize ≤ s.URL.length := Nat.not_le.2 (hlen s (by simp))
    have ih1 := ih (fun t ht => hLF t (by simp [ht])) (fun t ht => hlen t (by simp [ht]))
    have hsplit : urlLines (s :: S) ++ rest = s.URL ++ LF :: (urlLines S ++ rest) := by
      simp [urlLines]
    rw [hsplit, scanTokens_line _ _ h1]
    simp [h2, ih1]

theorem scanTokens_urlLines_tokens (rest : List UInt8) (S : List story)
    (hLF : ∀ s ∈ S, LF ∉ s.URL)
    (hok : (scanTokens (urlLines S ++ rest) []).2 = none) :
    ∃ toks, (scanTokens (urlLines S ++ rest) []).1 = S.map (fun s => dropCR s.URL) ++ toks := by
  induction S with
  | nil => exact ⟨(scanTokens rest []).1, by simp [urlLines]⟩
  | cons s S ih =>
    have h1 : LF ∉ s.URL := hLF s (by simp)
    have hsplit : urlLines (s :: S) ++ rest = s.URL ++ LF :: (urlLines S ++ rest) := by
      simp [urlLines]
    rw [hsplit, scanTokens_line _ _ h1] at hok ⊢
    by_cases h2 : MaxScanTokenSize ≤ s.URL.length
    · simp [h2] at hok
    · simp only [List.nil_append, h2, if_false] at hok ⊢
      obtain ⟨toks, ht⟩ := ih (fun t ht => hLF t (by simp [ht])) hok
      exact ⟨toks, by simp [ht]⟩

theorem scanTokens_ok_mono (l : List UInt8) :
    ∀ cur cur1 : List UInt8, (scanTokens l cur).2 = none → cur1.length ≤ cur.length →
      (scanTokens l cur1).2 = none := by
  induction l with
  | nil =>
    intro cur cur1 h hle
    by_cases h1 : cur1 = []
    · simp [scanTokens, h1]
    · have h0 : cur ≠ [] := by
        intro e
        rw [e] at hle
        exact h1 (List.length_eq_zero.1 (Nat.le_zero.1 hle))
      by_cases h2 : MaxScanTokenSize ≤ cur1.length
      · have h3 : MaxScanTokenSize ≤ cur.length := Nat.le_trans h2 hle
        simp [scanTokens, h0, h3] at h
      · simp [scanTokens, h1, h2]
  | cons c l ih =>
    intro cur cur1 h hle
    by_cases hc : c = LF
    · by_cases h2 : MaxScanTokenSize ≤ cur1.length
      · have h3 : MaxScanTokenSize ≤ cur.length := Nat.le_trans h2 hle
        simp [scanTokens, hc, h3] at h
      · by_cases h3 : MaxScanTokenSize ≤ cur.length
        · simp [scanTokens, hc, h3] at h
        · simp only [scanTokens, hc, if_true, h3, if_false] at h
          simp only [scanTokens, hc, if_true, h2, if_false]
          exact h
    · simp only [scanTokens, hc, if_false] at h ⊢
      exact ih _ _ h (by simp [hle])

theorem scanTokens_ok_drop (n : Nat) :
    ∀ (l cur : List UInt8), (scanTokens l cur).2 = none →
      (scanTokens (l.drop n) []).2 = none := by
  induction n with
  | zero =>
    intro l cur h
    exact scanTokens_ok_mono l cur [] h (by simp)
  | succ n ih =>
    intro l cur h
    cases l with
    | nil => simp [scanTokens]
    | cons c l =>
      by_cases hc : c = LF
      · by_cases h3 : MaxScanTokenSize ≤ cur.length
        · simp [scanTokens, hc, h3] at h
        · simp only [scanTokens, hc, if_true, h3, if_false] at h
          exact ih l [] h
      · simp only [scanTokens, hc, if_false] at h
        exact ih l _ h

/-! ## Save then filter -/

/-- C3, as the code has it: on a device without write faults, for stories
whose URLs hold no line feed and do not end in a carriage return,
`localStorage.filterStories(S)` after `localStorage.saveStories(S)` returns the
empty list; the error is nil as well when the file is opened and read without
fault, the URLs are shorter than the scanner's buffer and the prior content was
readable by the scanner. -/
theorem save_then_filter_empty (S : List story) (disk : Option (List UInt8))
    (openErr readErr : Option Error)
    (hLF : ∀ s ∈ S, LF ∉ s.URL) (hCR : ∀ s ∈ S, s.URL.getLast? ≠ some CR) :
    (localStorage.filterStories openErr readErr S
        (localStorage.saveStories none none S disk).2).1.1 = [] ∧
      (openErr = none → readErr = none →
        (∀ s ∈ S, s.URL.length < MaxScanTokenSize) →
        (scanTokens (disk.getD []) []).2 = none →
        (localStorage.filterStories openErr readErr S
          (localStorage.saveStories none none S disk).2).1 = ([], none)) := by
  rw [saveStories_eq]
  have hmap : S.map (fun s => dropCR s.URL) = S.map (fun s => s.URL) :=
    List.map_congr_left (fun s hs => dropCR_eq s.URL (hCR s hs))
  have hall : ∀ toks : List GoString,
      S.filter (fun c => decide (c.URL ∉ S.map (fun s => s.URL) ++ toks)) = [] := by
    intro toks
    rw [List.filter_eq_nil_iff]
    intro s hs
    simp only [decide_eq_true_eq, not_not, List.mem_append, List.mem_map]
    exact Or.inl ⟨s, hs, rfl⟩
  refine ⟨?_, ?_⟩
  · cases openErr with
    | some e => simp [localStorage.filterStories, OpenFile]
    | none =>
      cases readErr with
      | some e => simp [localStorage.filterStories, OpenFile, scanFile]
      | none =>
        cases hsc : scanTokens (overwrite (urlLines S) (disk.getD [])) [] with
        | mk K err =>
          cases err with
          | some e => simp [localStorage.filterStories, OpenFile, scanFile, hsc]
          | none =>
            have hok : (scanTokens (urlLines S
                ++ (disk.getD []).drop (urlLines S).length) []).2 = none := by
              have := congrArg Prod.snd hsc
              simpa [overwrite] using this
            obtain ⟨toks, ht⟩ := scanTokens_urlLines_tokens _ S hLF hok
            have hK : K = S.map (fun s => s.URL) ++ toks := by
              have := congrArg Prod.fst hsc
              simp only [overwrite] at this
              rw [← this, ht, hmap]
            rw [filterStories_of_scan S (some (overwrite (urlLines S) (disk.getD []))) K hsc,
              hK, hall toks]
  · intro ho hr hlen hold
    subst ho
    subst hr
    have hsc := scanTokens_urlLines ((disk.getD []).drop (urlLines S).length) S hLF hlen
    have hrest := scanTokens_ok_drop (urlLines S).length (disk.getD []) [] hold
    rw [hmap, hrest] at hsc
    have hsc1 : scanTokens (overwrite (urlLines S) (disk.getD [])) []
        = (S.map (fun s => s.URL)
            ++ (scanTokens ((disk.getD []).drop (urlLines S).length) []).1, none) := hsc
    rw [filterStories_of_scan S (some (overwrite (urlLines S) (disk.getD []))) _ hsc1, hall]

/-- C3 on a `.tbt` that knows `/a` and `/b`, saving and then filtering `/c`. -/
theorem save_then_filter_empty_witness :
    (∀ s ∈ [storyC], LF ∉ s.URL) ∧ (∀ s ∈ [storyC], s.URL.getLast? ≠ some CR) ∧
      (localStorage.filterStories none none [storyC]
        (localStorage.saveStories none none [storyC] diskAB).2).1 = ([], none) :=
  ⟨by decide, by decide,
    (save_then_filter_empty [storyC] diskAB none none (by decide) (by decide)).2 rfl rfl
      (by decide) (by decide)⟩

/-- C3 as stated fails for a URL that holds a line break: it is stored as two
lines, neither of which equals the URL, so the story saved a moment ago comes
back from `filterStories` as new. -/
theorem save_then_filter_line_break :
    localStorage.saveStories none none [storyLineBreak] none
        = (none, some (lit "https://www.tampabay.com/a\nb\n")) ∧
      (localStorage.filterStories none none [storyLineBreak]
        (localStorage.saveStories none none [storyLineBreak] none).2).1
        = ([storyLineBreak], none) := by
  decide

/-! ## Orchestrator: lemmas -/

theorem filterStories_world {κ μ : Type} (env : Env κ μ) (local_ : Bool)
    (stories : List story) (w : World κ μ) :
    ((newSubscriber env local_).storyStorer.filterStories stories w).2
      = { w with tbt := if local_ ∧ env.openErr = none then some (w.tbt.getD []) else w.tbt } := by
  cases local_ with
  | false => simp [newSubscriber, dynamoStorage]
  | true =>
    have h := filterStories_disk env.openErr env.readErr stories w.tbt
    simp only [newSubscriber, if_true, localStorage, h]
    cases env.openErr <;> simp

theorem filterStories_result {κ μ : Type} (env : Env κ μ) (local_ : Bool)
    (stories : List story) (w w1 : World κ μ) (h1 : w1.tbt = w.tbt) (h2 : w1.db = w.db) :
    ((newSubscriber env local_).storyStorer.filterStories stories w1).1
      = ((newSubscriber env local_).storyStorer.filterStories stories w).1 := by
  cases local_ with
  | false => simp [newSubscriber, dynamoStorage, h2]
  | true => simp [newSubscriber, localStorage, h1]

theorem sendSummary_frame {κ μ : Type} (env : Env κ μ) (local_ : Bool) (r : Email)
    (txtRes htmlRes : GoString) (w : World κ μ) :
    ((newSubscriber env local_).summarySender.sendSummary r txtRes htmlRes w).2.tbt = w.tbt ∧
      ((newSubscriber env local_).summarySender.sendSummary r txtRes htmlRes w).2.db = w.db ∧
      ((newSubscriber env local_).summarySender.sendSummary r txtRes htmlRes w).2.calls
        = w.calls := by
  cases local_ with
  | false => simp [newSubscriber, sendgridSender, sendgridSender.sendSummary]
  | true => simp [newSubscriber, localSender, localSender.sendSummary, Println]

theorem sendLoop_frame {κ μ : Type} (env : Env κ μ) (local_ : Bool)
    (txtRes htmlRes : GoString) (rcpts : List Email) :
    ∀ (w w1 : World κ μ),
      sendLoop (newSubscriber env local_).summarySender txtRes htmlRes rcpts w = (none, w1) →
      w1.tbt = w.tbt ∧ w1.db = w.db ∧ w1.calls = w.calls ++ rcpts.map Call.sendSummary := by
  induction rcpts with
  | nil =>
    intro w w1 h
    simp only [sendLoop, Prod.mk.injEq, true_and] at h
    subst h
    simp
  | cons r rest ih =>
    intro w w1 h
    obtain ⟨f1, f2, f3⟩ := sendSummary_frame env local_ r txtRes htmlRes (w.log (Call.sendSummary r))
    cases hs : (newSubscriber env local_).summarySender.sendSummary r txtRes htmlRes
        (w.log (Call.sendSummary r)) with
    | mk e w2 =>
      rw [hs] at f1 f2 f3
      cases e with
      | some err => simp [sendLoop, hs] at h
      | none =>
        simp only [sendLoop, hs] at h
        obtain ⟨g1, g2, g3⟩ := ih w2 w1 h
        refine ⟨?_, ?_, ?_⟩
        · rw [g1, f1]; rfl
        · rw [g2, f2]; rfl
        · rw [g3, f3]; simp [World.log]

theorem sendLoop_append {κ μ : Type} (ss : summarySender κ μ) (txtRes htmlRes : GoString)
    (pre : List Email) (r : Email) (post : List Email) :
    ∀ (w w3 : World κ μ), sendLoop ss txtRes htmlRes pre w = (none, w3) →
      sendLoop ss txtRes htmlRes (pre ++ r :: post) w
        = sendLoop ss txtRes htmlRes (r :: post) w3 := by
  induction pre with
  | nil =>
    intro w w3 h
    simp only [sendLoop, Prod.mk.injEq, true_and] at h
    subst h
    rfl
  | cons p pre ih =>
    intro w w3 h
    cases hs : ss.sendSummary p txtRes htmlRes (w.log (Call.sendSummary p)) with
    | mk e w2 =>
      cases e with
      | some err => simp [sendLoop, hs] at h
      | none =>
        simp only [sendLoop, hs] at h
        simp only [List.cons_append, sendLoop, hs]
        exact ih w2 w3 h

/-! ## Orchestrator: claims -/

/-- C7: when scraping succeeds and `filterStories` returns the empty list
with a nil error, `run` returns nil; the calls it made are `getStories` and
`filterStories` only (no render, no `sendSummary`, no `saveStories`), it
printed `Nothing to do!` and no email, the mail provider and the table are
untouched and the bytes of `.tbt` are those from before the run. -/
theorem run_nothing_to_do {κ μ : Type} (env : Env κ μ) (local_ : Bool) (rcpts : List Email)
    (w : World κ μ)
    (hfilter : ((newSubscriber env local_).storyStorer.filterStories
        (getStories env.web).1 w).1 = ([], none)) :
    (getStories env.web).2 = none ∧
      (runTo env local_ rcpts w).1 = none ∧
      (runTo env local_ rcpts w).2.calls = w.calls ++ [Call.getStories, Call.filterStories] ∧
      (runTo env local_ rcpts w).2.stdout
        = w.stdout ++ (if local_ then [lit "Starting in local mode..."] else [])
            ++ [lit "Nothing to do!"] ∧
      (runTo env local_ rcpts w).2.mail = w.mail ∧
      (runTo env local_ rcpts w).2.db = w.db ∧
      (runTo env local_ rcpts w).2.tbt.getD [] = w.tbt.getD [] := by
  have hres := filterStories_result env local_ (getStories env.web).1 w
    (beforeFilter local_ w) (by cases local_ <;> rfl) (by cases local_ <;> rfl)
  rw [hfilter] at hres
  have hw := filterStories_world env local_ (getStories env.web).1 (beforeFilter local_ w)
  have hrun : runTo env local_ rcpts w
      = (none, Println (lit "Nothing to do!")
          ((newSubscriber env local_).storyStorer.filterStories (getStories env.web).1
            (beforeFilter local_ w)).2) := by
    have hl : (newSubscriber env local_).local_ = local_ := by cases local_ <;> rfl
    have hg : getStories env.web = ((getStories env.web).1, none) := by
      rw [getStories_eq]
    cases hf : (newSubscriber env local_).storyStorer.filterStories (getStories env.web).1
        (beforeFilter local_ w) with
    | mk res w2 =>
      rw [hf] at hres
      simp only at hres
      subst hres
      simp only [runTo, runSub, hl]
      rw [hg]
      simp only [beforeFilter] at hf
      simp [hf]
  rw [hrun, hw]
  refine ⟨by rw [getStories_eq], rfl, ?_, ?_, by cases local_ <;> rfl,
    by cases local_ <;> rfl, ?_⟩
  · cases local_ <;> simp [Println, beforeFilter, World.log]
  · cases local_ <;> simp [Println, beforeFilter, World.log]
  · cases local_
    · simp [Println, beforeFilter, World.log]
    · cases env.openErr <;> simp [Println, beforeFilter, World.log]

/-- C7 in local mode on a `.tbt` that already knows the one story of the page. -/
theorem run_nothing_to_do_witness :
    ((newSubscriber env0 true).storyStorer.filterStories
        (getStories env0.web).1 worldKnown).1 = ([], none) ∧
      ((getStories env0.web).2 = none ∧
        (run env0 true worldKnown).1 = none ∧
        (run env0 true worldKnown).2.calls
          = worldKnown.calls ++ [Call.getStories, Call.filterStories] ∧
        (run env0 true worldKnown).2.stdout
          = worldKnown.stdout ++ (if true then [lit "Starting in local mode..."] else [])
              ++ [lit "Nothing to do!"] ∧
        (run env0 true worldKnown).2.mail = worldKnown.mail ∧
        (run env0 true worldKnown).2.db = worldKnown.db ∧
        (run env0 true worldKnown).2.tbt.getD [] = worldKnown.tbt.getD []) :=
  ⟨by decide, run_nothing_to_do env0 true recipients worldKnown (by decide)⟩

/-- C6: when scraping and filtering succeed with a non-empty list of new
stories, the bodies are rendered, the sends to the recipients `pre` succeed
and the send to the next recipient `r` returns the error `err`, `run` returns
`err` in the world that this send left: the recipients `post` after `r` are
not sent to, `saveStories` is not called, and `.tbt` and the table are as
`filterStories` left them, with the same known bytes and items as before the
run. -/
theorem run_send_failure {κ μ : Type} (env : Env κ μ) (local_ : Bool)
    (pre post : List Email) (r : Email) (w w2 w3 w4 : World κ μ)
    (newStories : List story) (txtRes htmlRes : GoString) (err : Error)
    (hfilter : (newSubscriber env local_).storyStorer.filterStories (getStories env.web).1
        (beforeFilter local_ w) = ((newStories, none), w2))
    (hne : newStories ≠ [])
    (hmail : writeEmail env newStories = (txtRes, htmlRes, none))
    (hpre : sendLoop (newSubscriber env local_).summarySender txtRes htmlRes pre
        (w2.log Call.writeEmail) = (none, w3))
    (hr : (newSubscriber env local_).summarySender.sendSummary r txtRes htmlRes
        (w3.log (Call.sendSummary r)) = (some err, w4)) :
    runTo env local_ (pre ++ r :: post) w = (some err, w4) ∧
      w4.calls = w.calls ++ [Call.getStories, Call.filterStories, Call.writeEmail]
          ++ (pre ++ [r]).map Call.sendSummary ∧
      w4.tbt = w2.tbt ∧ w4.db = w2.db ∧
      w4.tbt.getD [] = w.tbt.getD [] ∧ w4.db = w.db := by
  have hw := filterStories_world env local_ (getStories env.web).1 (beforeFilter local_ w)
  rw [hfilter] at hw
  simp only at hw
  obtain ⟨p1, p2, p3⟩ := sendLoop_frame env local_ txtRes htmlRes pre _ _ hpre
  obtain ⟨q1, q2, q3⟩ := sendSummary_frame env local_ r txtRes htmlRes
    (w3.log (Call.sendSummary r))
  rw [hr] at q1 q2 q3
  simp only at q1 q2 q3
  have htbt : w4.tbt = w2.tbt := by rw [q1]; exact p1
  have hdb : w4.db = w2.db := by rw [q2]; exact p2
  have hlen : ¬ newStories.length = 0 := fun h => hne (List.length_eq_zero.1 h)
  have hl : (newSubscriber env local_).local_ = local_ := by cases local_ <;> rfl
  have hg : getStories env.web = ((getStories env.web).1, none) := by rw [getStories_eq]
  have hloop : sendLoop (newSubscriber env local_).summarySender txtRes htmlRes
      (pre ++ r :: post) (w2.log Call.writeEmail) = (some err, w4) := by
    rw [sendLoop_append _ _ _ pre r post _ _ hpre]
    simp [sendLoop, hr]
  refine ⟨?_, ?_, htbt, hdb, ?_, ?_⟩
  · have hf := hfilter
    simp only [beforeFilter] at hf
    simp only [runTo, runSub, hl]
    rw [hg]
    simp [hf, hlen, hmail, hloop]
  · rw [q3]
    simp only [World.log] at p3 ⊢
    rw [p3, hw]
    cases local_ <;> simp [beforeFilter, World.log, Println]
  · rw [htbt, hw]
    cases local_
    · simp [beforeFilter, World.log]
    · cases env.openErr <;> simp [beforeFilter, World.log, Println]
  · rw [hdb, hw]
    cases local_ <;> rfl

/-- C6 in production mode with three recipients, the second of which the
mail provider fails on: the third one gets nothing. -/
theorem run_send_failure_witness :
    (newSubscriber envSendFails false).storyStorer.filterStories (getStories envSendFails.web).1
        (beforeFilter false world0) = (([normalised rawStory1], none), beforeFilter false world0) ∧
      (runTo envSendFails false (recipients ++ otherRecipient :: recipients) world0).1
        = some (Error.other "connection refused") ∧
      (runTo envSendFails false (recipients ++ otherRecipient :: recipients) world0).2.calls
        = [Call.getStories, Call.filterStories, Call.writeEmail,
           Call.sendSummary (NewEmail (lit "Russell Rollins") (lit "russell1124@gmail.com")),
           Call.sendSummary otherRecipient] ∧
      (runTo envSendFails false (recipients ++ otherRecipient :: recipients) world0).2.db = [] ∧
      (runTo envSendFails false (recipients ++ otherRecipient :: recipients) world0).2.mail.length
        = 1 := by
  have h := run_send_failure envSendFails false recipients recipients otherRecipient world0
    (beforeFilter false world0)
    (sendLoop (newSubscriber envSendFails false).summarySender
      (writeEmail envSendFails [normalised rawStory1]).1
      (writeEmail envSendFails [normalised rawStory1]).2.1 recipients
      ((beforeFilter false world0).log Call.writeEmail)).2
    ((newSubscriber envSendFails false).summarySender.sendSummary otherRecipient
      (writeEmail envSendFails [normalised rawStory1]).1
      (writeEmail envSendFails [normalised rawStory1]).2.1
      ((sendLoop (newSubscriber envSendFails false).summarySender
        (writeEmail envSendFails [normalised rawStory1]).1
        (writeEmail envSendFails [normalised rawStory1]).2.1 recipients
        ((beforeFilter false world0).log Call.writeEmail)).2.log
          (Call.sendSummary otherRecipient))).2
    [normalised rawStory1]
    (writeEmail envSendFails [normalised rawStory1]).1
    (writeEmail envSendFails [normalised rawStory1]).2.1
    (Error.other "connection refused")
    (by decide) (by decide) (by decide) (by decide) (by decide)
  refine ⟨by decide, ?_, ?_, ?_, ?_⟩
  · rw [h.1]
  · rw [h.1]; decide
  · rw [h.1]; decide
  · rw [h.1]; decide

end TbtAuthorSub
